import Mathlib

/-!
Verification of the Muse Score scoring engine (src/app.py) against its
natural-language specification.

The scoring core is embedded shallowly over exact rationals (ℚ):
a pandas Series becomes `List ℚ`, a dataframe row becomes `AreaRecord`,
and the column-wise vectorized operations become `List.map` / `List.zipWith`.
Python's built-in `round` and pandas `.round()` both round half to even;
they are embedded as `pyRound`.  Note that in ℚ, division by zero yields 0
(where float semantics would give NaN/inf); every theorem whose truth could
depend on that convention either carries a non-degeneracy hypothesis or is
explicitly about the degenerate case and documents the convention.
-/

namespace MuseScore

/-- One row of the demographics dataframe, restricted to the fields the
scoring core reads.  Presentation-only columns (`city`, `lat`, `lng`) are
omitted; numeric columns are modelled as exact rationals. -/
structure AreaRecord where
  zip : String
  state_id : String
  COLI : ℚ
  TRF : ℚ
  PCPI : ℚ
  PTR : ℚ
  TR : ℚ
  RSF : ℚ
  Savings : ℚ
deriving DecidableEq, Repr

instance : Inhabited AreaRecord :=
  ⟨{ zip := "", state_id := "", COLI := 0, TRF := 0, PCPI := 0, PTR := 0,
     TR := 0, RSF := 0, Savings := 0 }⟩

/-- Embedding of `series.min()` on a nonempty column (pandas returns the
least element; the empty case never arises in the claims, it is given a
junk value 0). -/
def seriesMin : List ℚ → ℚ
  | [] => 0
  | x :: xs => xs.foldl min x

/-- Embedding of `series.max()` on a nonempty column. -/
def seriesMax : List ℚ → ℚ
  | [] => 0
  | x :: xs => xs.foldl max x

/-- Min/max statistics of one column, as used by both normalization maps. -/
structure ColumnStats where
  lo : ℚ
  hi : ℚ
deriving DecidableEq, Repr

/-- Statistics of a column, computed once from the column itself. -/
def statsOf (s : List ℚ) : ColumnStats :=
  { lo := seriesMin s, hi := seriesMax s }

/-- Pointwise min-max normalization `100 * (v - min) / (max - min)`
against precomputed statistics. -/
def normWith (st : ColumnStats) (v : ℚ) : ℚ :=
  100 * (v - st.lo) / (st.hi - st.lo)

/-- Pointwise inverse normalization `100 * (max - v) / (max - min)`
against precomputed statistics. -/
def invNormWith (st : ColumnStats) (v : ℚ) : ℚ :=
  100 * (st.hi - v) / (st.hi - st.lo)

/-- Embedding of `normalize` (src/app.py lines 23-24):
`100 * (series - series.min()) / (series.max() - series.min())`,
elementwise over the column. -/
def normalize (s : List ℚ) : List ℚ :=
  s.map (fun v => 100 * (v - seriesMin s) / (seriesMax s - seriesMin s))

/-- Embedding of `inverse_normalize` (src/app.py lines 26-27):
`100 * (series.max() - series) / (series.max() - series.min())`. -/
def inverse_normalize (s : List ℚ) : List ℚ :=
  s.map (fun v => 100 * (seriesMax s - v) / (seriesMax s - seriesMin s))

/-- Embedding of `base_score_from_agi` (src/app.py lines 29-40); the local
`ratio = agi / pcpi` is inlined. -/
def base_score_from_agi (agi pcpi : ℚ) : ℤ :=
  if agi / pcpi < 0.6 then 350
  else if agi / pcpi < 0.7 then 400
  else if agi / pcpi < 0.8 then 450
  else if agi / pcpi < 0.9 then 500
  else if agi / pcpi < 1.0 then 550
  else if agi / pcpi < 1.2 then 600
  else if agi / pcpi < 1.5 then 675
  else if agi / pcpi < 2.0 then 750
  else if agi / pcpi < 2.5 then 800
  else 850

/-- Embedding of `label_from_score` (src/app.py lines 42-47). -/
def label_from_score (score : ℤ) : String :=
  if score < 500 then "🔴 Financially Stressed"
  else if score < 600 then "🟠 At Risk"
  else if score < 700 then "🟡 Near Stable"
  else if score < 800 then "🟢 Good"
  else "🟢🟢 Excellent"

/-- Python's built-in `round` and pandas `.round()`: round half to even. -/
def pyRound (q : ℚ) : ℤ :=
  if q - ⌊q⌋ < 1 / 2 then ⌊q⌋
  else if 1 / 2 < q - ⌊q⌋ then ⌊q⌋ + 1
  else if ⌊q⌋ % 2 = 0 then ⌊q⌋ else ⌊q⌋ + 1

/-- The single-area scoring output (spec §3 `ScoreResult`). -/
structure ScoreResult where
  base_score : ℤ
  adjustment : ℚ
  final_score : ℤ
  label : String
deriving DecidableEq, Repr

/-- Embedding of the single-area computation (src/app.py lines 62-83).
In the source each normalized term is `inverse_normalize(df[col]).loc[row.name]`
(resp. `normalize`): the element of the normalized column at the selected
row's index, which is the pointwise formula applied to the row's own value
with statistics of the full column. -/
def computeResult (df : List AreaRecord) (agi : ℚ) (row : AreaRecord) : ScoreResult :=
  let coli := invNormWith (statsOf (df.map AreaRecord.COLI)) row.COLI
  let trf := invNormWith (statsOf (df.map AreaRecord.TRF)) row.TRF
  let ptr := invNormWith (statsOf (df.map AreaRecord.PTR)) row.PTR
  let sitf := invNormWith (statsOf (df.map AreaRecord.TR)) row.TR
  let rsf := normWith (statsOf (df.map AreaRecord.RSF)) row.RSF
  let isf := normWith (statsOf (df.map AreaRecord.Savings)) row.Savings
  let base := base_score_from_agi agi row.PCPI
  let adj := 15 * (coli / 100) + 10 * (trf / 100) + 10 * (ptr / 100) +
    10 * (sitf / 100) + 5 * (rsf / 100) + 5 * (isf / 100)
  let fs := min 850 (pyRound ((base : ℚ) + adj))
  { base_score := base, adjustment := adj, final_score := fs,
    label := label_from_score fs }

/-- Elementwise scalar multiple of a Series (pandas broadcast `c * s`). -/
def scaleSeries (c : ℚ) (s : List ℚ) : List ℚ :=
  s.map (fun v => c * v)

/-- Elementwise scalar division of a Series (pandas broadcast `s / c`). -/
def divSeries (s : List ℚ) (c : ℚ) : List ℚ :=
  s.map (fun v => v / c)

/-- Elementwise sum of two aligned Series. -/
def addSeries (a b : List ℚ) : List ℚ :=
  List.zipWith (fun x y => x + y) a b

/-- Embedding of `df_copy['base_score']` (src/app.py line 87): a per-row
`apply` of `base_score_from_agi`. -/
def batchBase (df : List AreaRecord) (agi : ℚ) : List ℤ :=
  df.map (fun x => base_score_from_agi agi x.PCPI)

/-- Embedding of `df_copy['adjustment']` (src/app.py lines 88-95): the
vectorized weighted sum of the normalized columns. -/
def batchAdjustment (df : List AreaRecord) : List ℚ :=
  addSeries (addSeries (addSeries (addSeries (addSeries
    (scaleSeries 15 (divSeries (inverse_normalize (df.map AreaRecord.COLI)) 100))
    (scaleSeries 10 (divSeries (inverse_normalize (df.map AreaRecord.TRF)) 100)))
    (scaleSeries 10 (divSeries (inverse_normalize (df.map AreaRecord.PTR)) 100)))
    (scaleSeries 10 (divSeries (inverse_normalize (df.map AreaRecord.TR)) 100)))
    (scaleSeries 5 (divSeries (normalize (df.map AreaRecord.RSF)) 100)))
    (scaleSeries 5 (divSeries (normalize (df.map AreaRecord.Savings)) 100))

/-- Embedding of `df_copy['muse_score']` (src/app.py line 96):
`(base_score + adjustment).clip(upper=850).round()`, elementwise. -/
def museScores (df : List AreaRecord) (agi : ℚ) : List ℤ :=
  (addSeries ((batchBase df agi).map (fun b => (Int.cast b : ℚ))) (batchAdjustment df)).map
    (fun v => pyRound (min 850 v))

/-- The spec's ten-band table (§4.2): upper bound of each half-open band
paired with its base score, ascending; the last band is open-ended. -/
def bands : List (ℚ × ℤ) :=
  [(0.6, 350), (0.7, 400), (0.8, 450), (0.9, 500), (1.0, 550),
   (1.2, 600), (1.5, 675), (2.0, 750), (2.5, 800)]

/-- First-match-wins lookup through ascending half-open bands; falls through
to the open-ended top band 850. -/
def bandLookup : List (ℚ × ℤ) → ℚ → ℤ
  | [], _ => 850
  | (hi, sc) :: rest, r => if r < hi then sc else bandLookup rest r

/-- Well-formedness of a band table: the scores are ascending along the
list and never exceed the open-ended top score 850. -/
def scoresMono : List (ℚ × ℤ) → Prop
  | [] => True
  | p :: rest => (∀ q ∈ rest, p.2 ≤ q.2) ∧ p.2 ≤ 850 ∧ scoresMono rest

/-- The spec's five label bands (§4.2 step 6), ascending. -/
def labelBands : List (ℤ × String) :=
  [(500, "🔴 Financially Stressed"), (600, "🟠 At Risk"),
   (700, "🟡 Near Stable"), (800, "🟢 Good")]

/-- First-match-wins lookup through ascending score bands; falls through to
the `else` label Excellent. -/
def labelLookup : List (ℤ × String) → ℤ → String
  | [], _ => "🟢🟢 Excellent"
  | (hi, l) :: rest, s => if s < hi then l else labelLookup rest s

/-- One shared set of column statistics for a whole batch (spec §4.3),
computed once from the full dataset. -/
structure SharedStats where
  coli : ColumnStats
  trf : ColumnStats
  ptr : ColumnStats
  tr : ColumnStats
  rsf : ColumnStats
  savings : ColumnStats
deriving DecidableEq, Repr

/-- Statistics of all six indicator columns, computed once over the dataset. -/
def sharedStats (df : List AreaRecord) : SharedStats :=
  { coli := statsOf (df.map AreaRecord.COLI),
    trf := statsOf (df.map AreaRecord.TRF),
    ptr := statsOf (df.map AreaRecord.PTR),
    tr := statsOf (df.map AreaRecord.TR),
    rsf := statsOf (df.map AreaRecord.RSF),
    savings := statsOf (df.map AreaRecord.Savings) }

/-- Per-row adjustment computed against a precomputed shared set of column
statistics. -/
def adjWith (st : SharedStats) (r : AreaRecord) : ℚ :=
  15 * (invNormWith st.coli r.COLI / 100) + 10 * (invNormWith st.trf r.TRF / 100) +
  10 * (invNormWith st.ptr r.PTR / 100) + 10 * (invNormWith st.tr r.TR / 100) +
  5 * (normWith st.rsf r.RSF / 100) + 5 * (normWith st.savings r.Savings / 100)

/-- Per-row batch score computed against precomputed shared statistics:
`round(min(850, base + adjustment))`. -/
def rowScoreWith (st : SharedStats) (agi : ℚ) (r : AreaRecord) : ℤ :=
  pyRound (min 850 ((base_score_from_agi agi r.PCPI : ℚ) + adjWith st r))

/-- All six indicator columns of the dataset have strictly positive spread
(no zero-variance column), so no normalization divides by zero. -/
def nondegCols (df : List AreaRecord) : Prop :=
  seriesMin (df.map AreaRecord.COLI) < seriesMax (df.map AreaRecord.COLI) ∧
  seriesMin (df.map AreaRecord.TRF) < seriesMax (df.map AreaRecord.TRF) ∧
  seriesMin (df.map AreaRecord.PTR) < seriesMax (df.map AreaRecord.PTR) ∧
  seriesMin (df.map AreaRecord.TR) < seriesMax (df.map AreaRecord.TR) ∧
  seriesMin (df.map AreaRecord.RSF) < seriesMax (df.map AreaRecord.RSF) ∧
  seriesMin (df.map AreaRecord.Savings) < seriesMax (df.map AreaRecord.Savings)

instance (df : List AreaRecord) : Decidable (nondegCols df) := by
  unfold nondegCols
  infer_instance

/-- A concrete area record used as a witness input. -/
def rA : AreaRecord :=
  { zip := "10001", state_id := "NY", COLI := 10, TRF := 1, PCPI := 50000,
    PTR := 1, TR := 1, RSF := 1, Savings := 1 }

/-- A second concrete area record used as a witness input. -/
def rB : AreaRecord :=
  { zip := "90210", state_id := "CA", COLI := 20, TRF := 2, PCPI := 90000,
    PTR := 2, TR := 2, RSF := 2, Savings := 2 }

/-- A third concrete area record, used alone as a single-row dataset in which
every indicator column has zero spread. -/
def rC : AreaRecord :=
  { zip := "60601", state_id := "IL", COLI := 30, TRF := 3, PCPI := 40000,
    PTR := 2, TR := 4, RSF := 1, Savings := 12000 }

/-! ## Helper lemmas -/

theorem foldl_min_le_init : ∀ (xs : List ℚ) (a : ℚ), xs.foldl min a ≤ a
  | [], a => le_refl a
  | x :: xs, a => le_trans (foldl_min_le_init xs (min a x)) (min_le_left a x)

theorem foldl_min_le_of_mem (v : ℚ) :
    ∀ (xs : List ℚ) (a : ℚ), v ∈ xs → xs.foldl min a ≤ v := by
  intro xs
  induction xs with
  | nil => intro a h; exact absurd h (List.not_mem_nil v)
  | cons x xs ih =>
    intro a h
    rcases List.mem_cons.mp h with h | h
    · subst h
      exact le_trans (foldl_min_le_init xs (min a v)) (min_le_right a v)
    · exact ih (min a x) h

theorem init_le_foldl_max : ∀ (xs : List ℚ) (a : ℚ), a ≤ xs.foldl max a
  | [], a => le_refl a
  | x :: xs, a => le_trans (le_max_left a x) (init_le_foldl_max xs (max a x))

theorem mem_le_foldl_max (v : ℚ) :
    ∀ (xs : List ℚ) (a : ℚ), v ∈ xs → v ≤ xs.foldl max a := by
  intro xs
  induction xs with
  | nil => intro a h; exact absurd h (List.not_mem_nil v)
  | cons x xs ih =>
    intro a h
    rcases List.mem_cons.mp h with h | h
    · subst h
      exact le_trans (le_max_right a v) (init_le_foldl_max xs (max a v))
    · exact ih (max a x) h

theorem seriesMin_le_of_mem {s : List ℚ} {v : ℚ} (hv : v ∈ s) : seriesMin s ≤ v := by
  cases s with
  | nil => exact absurd hv (List.not_mem_nil v)
  | cons x xs =>
    rcases List.mem_cons.mp hv with h | h
    · subst h; exact foldl_min_le_init xs v
    · exact foldl_min_le_of_mem v xs x h

theorem le_seriesMax_of_mem {s : List ℚ} {v : ℚ} (hv : v ∈ s) : v ≤ seriesMax s := by
  cases s with
  | nil => exact absurd hv (List.not_mem_nil v)
  | cons x xs =>
    rcases List.mem_cons.mp hv with h | h
    · subst h; exact init_le_foldl_max xs v
    · exact mem_le_foldl_max v xs x h

theorem getD_map_of_lt {α β : Type} (f : α → β) (d : β) (e : α) :
    ∀ (s : List α) (i : ℕ), i < s.length → (s.map f).getD i d = f (s.getD i e) := by
  intro s
  induction s with
  | nil => intro i h; exact absurd h (Nat.not_lt_zero i)
  | cons x xs ih =>
    intro i h
    cases i with
    | zero => rfl
    | succ j => exact ih j (Nat.lt_of_succ_lt_succ h)

theorem getD_mem_of_lt {α : Type} (e : α) :
    ∀ (s : List α) (i : ℕ), i < s.length → s.getD i e ∈ s := by
  intro s
  induction s with
  | nil => intro i h; exact absurd h (Nat.not_lt_zero i)
  | cons x xs ih =>
    intro i h
    cases i with
    | zero => exact List.mem_cons_self x xs
    | succ j => exact List.mem_cons_of_mem x (ih j (Nat.lt_of_succ_lt_succ h))

theorem floor_le_pyRound (q : ℚ) : ⌊q⌋ ≤ pyRound q := by
  unfold pyRound
  split_ifs <;> omega

theorem pyRound_intCast (n : ℤ) : pyRound (n : ℚ) = n := by
  unfold pyRound
  rw [Int.floor_intCast]
  norm_num

theorem int_le_pyRound {n : ℤ} {q : ℚ} (h : (n : ℚ) ≤ q) : n ≤ pyRound q :=
  le_trans (Int.le_floor.mpr h) (floor_le_pyRound q)

theorem pyRound_le_int {n : ℤ} {q : ℚ} (h : q ≤ (n : ℚ)) : pyRound q ≤ n := by
  have hf : ⌊q⌋ ≤ n := by
    have h1 : ⌊q⌋ ≤ ⌊(n : ℚ)⌋ := Int.floor_le_floor h
    simpa using h1
  have hstrict : 1 / 2 ≤ q - (⌊q⌋ : ℚ) → ⌊q⌋ < n := by
    intro hr
    rcases lt_or_eq_of_le hf with h4 | h4
    · exact h4
    · exfalso
      have h5 : ((⌊q⌋ : ℤ) : ℚ) = (n : ℚ) := by exact_mod_cast h4
      linarith
  unfold pyRound
  split_ifs with h1 h2 h3
  · exact hf
  · have h6 : ⌊q⌋ < n := hstrict (le_of_lt h2)
    omega
  · exact hf
  · have h6 : ⌊q⌋ < n := hstrict (by linarith [not_lt.mp h1])
    omega

theorem min850_pyRound (q : ℚ) : min 850 (pyRound q) = pyRound (min 850 q) := by
  rcases le_total q (850 : ℚ) with h | h
  · have h1 : pyRound q ≤ (850 : ℤ) := pyRound_le_int (by exact_mod_cast h)
    rw [min_eq_right h, min_eq_right h1]
  · have h1 : (850 : ℤ) ≤ pyRound q := int_le_pyRound (by exact_mod_cast h)
    rw [min_eq_left h, min_eq_left h1]
    have h2 : ((850 : ℤ) : ℚ) = (850 : ℚ) := by norm_num
    calc (850 : ℤ) = pyRound ((850 : ℤ) : ℚ) := (pyRound_intCast 850).symm
    _ = pyRound (850 : ℚ) := by rw [h2]

theorem normWith_nonneg {st : ColumnStats} {v : ℚ} (h1 : st.lo ≤ v)
    (h3 : st.lo < st.hi) : 0 ≤ normWith st v := by
  unfold normWith
  apply div_nonneg (by linarith) (by linarith)

theorem normWith_le_100 {st : ColumnStats} {v : ℚ} (h2 : v ≤ st.hi)
    (h3 : st.lo < st.hi) : normWith st v ≤ 100 := by
  unfold normWith
  rw [div_le_iff₀ (by linarith)]
  linarith

theorem invNormWith_nonneg {st : ColumnStats} {v : ℚ} (h2 : v ≤ st.hi)
    (h3 : st.lo < st.hi) : 0 ≤ invNormWith st v := by
  unfold invNormWith
  apply div_nonneg (by linarith) (by linarith)

theorem invNormWith_le_100 {st : ColumnStats} {v : ℚ} (h1 : st.lo ≤ v)
    (h3 : st.lo < st.hi) : invNormWith st v ≤ 100 := by
  unfold invNormWith
  rw [div_le_iff₀ (by linarith)]
  linarith

theorem normWith_add_invNormWith {st : ColumnStats} {v : ℚ}
    (h3 : st.lo < st.hi) : normWith st v + invNormWith st v = 100 := by
  have h : st.hi - st.lo ≠ 0 := sub_ne_zero.mpr (ne_of_gt h3)
  unfold normWith invNormWith
  field_simp
  ring

theorem zipWith_map_same {α β γ δ : Type} (f : β → γ → δ) (g : α → β) (h : α → γ) :
    ∀ l : List α, List.zipWith f (l.map g) (l.map h) = l.map (fun x => f (g x) (h x)) := by
  intro l
  induction l with
  | nil => rfl
  | cons x xs ih => simp only [List.map_cons, List.zipWith_cons_cons, ih]

theorem base_score_bounds (agi pcpi : ℚ) :
    350 ≤ base_score_from_agi agi pcpi ∧ base_score_from_agi agi pcpi ≤ 850 := by
  unfold base_score_from_agi
  split_ifs <;> omega

theorem label_from_score_eq_lookup (s : ℤ) :
    label_from_score s = labelLookup labelBands s := by
  simp only [label_from_score, labelLookup, labelBands]

theorem base_score_eq_bandLookup (agi pcpi : ℚ) :
    base_score_from_agi agi pcpi = bandLookup bands (agi / pcpi) := by
  simp only [base_score_from_agi, bandLookup, bands]

theorem le_bandLookup (sc : ℤ) (hsc : sc ≤ 850) :
    ∀ (L : List (ℚ × ℤ)), (∀ q ∈ L, sc ≤ q.2) → ∀ r : ℚ, sc ≤ bandLookup L r := by
  intro L
  induction L with
  | nil => intro _ r; simpa [bandLookup] using hsc
  | cons p rest ih =>
    intro hall r
    rcases p with ⟨b, s⟩
    by_cases hr : r < b
    · simp only [bandLookup, if_pos hr]
      exact hall (b, s) (List.mem_cons_self _ _)
    · simp only [bandLookup, if_neg hr]
      exact ih (fun q hq => hall q (List.mem_cons_of_mem _ hq)) r

theorem bandLookup_mono :
    ∀ (L : List (ℚ × ℤ)), scoresMono L →
      ∀ {x y : ℚ}, x ≤ y → bandLookup L x ≤ bandLookup L y := by
  intro L
  induction L with
  | nil => intro _ x y _; exact le_refl _
  | cons p rest ih =>
    intro hOK x y hxy
    simp only [scoresMono] at hOK
    obtain ⟨hall, h850, hrest⟩ := hOK
    rcases p with ⟨b, s⟩
    by_cases hx : x < b
    · by_cases hy : y < b
      · simp only [bandLookup, if_pos hx, if_pos hy]
        exact le_refl s
      · simp only [bandLookup, if_pos hx, if_neg hy]
        exact le_bandLookup s h850 rest hall y
    · have hy : ¬ y < b := fun h => hx (lt_of_le_of_lt hxy h)
      simp only [bandLookup, if_neg hx, if_neg hy]
      exact ih hrest hxy

theorem scoresMono_bands : scoresMono bands := by
  norm_num [scoresMono, bands]

theorem museScores_eq_map (df : List AreaRecord) (agi : ℚ) :
    museScores df agi = df.map (rowScoreWith (sharedStats df) agi) := by
  apply List.ext_getElem
  · simp [museScores, batchBase, batchAdjustment, addSeries, scaleSeries, divSeries,
      normalize, inverse_normalize, List.length_zipWith, List.length_map]
  · intro i h1 h2
    simp only [museScores, batchBase, batchAdjustment, addSeries, scaleSeries, divSeries,
      normalize, inverse_normalize, List.getElem_map, List.getElem_zipWith,
      rowScoreWith, adjWith, sharedStats, statsOf, invNormWith, normWith]

theorem rowScore_eq_final (df : List AreaRecord) (agi : ℚ) (r : AreaRecord) :
    rowScoreWith (sharedStats df) agi r = (computeResult df agi r).final_score := by
  show pyRound (min 850 ((base_score_from_agi agi r.PCPI : ℚ) + adjWith (sharedStats df) r)) = _
  rw [← min850_pyRound]
  rfl

theorem adjustment_bounds (df : List AreaRecord) (agi : ℚ) (row : AreaRecord)
    (hrow : row ∈ df) (hnd : nondegCols df) :
    0 ≤ (computeResult df agi row).adjustment ∧
    (computeResult df agi row).adjustment ≤ 55 := by
  obtain ⟨h1, h2, h3, h4, h5, h6⟩ := hnd
  have hmC : row.COLI ∈ df.map AreaRecord.COLI := List.mem_map_of_mem _ hrow
  have hmT : row.TRF ∈ df.map AreaRecord.TRF := List.mem_map_of_mem _ hrow
  have hmP : row.PTR ∈ df.map AreaRecord.PTR := List.mem_map_of_mem _ hrow
  have hmR : row.TR ∈ df.map AreaRecord.TR := List.mem_map_of_mem _ hrow
  have hmS : row.RSF ∈ df.map AreaRecord.RSF := List.mem_map_of_mem _ hrow
  have hmV : row.Savings ∈ df.map AreaRecord.Savings := List.mem_map_of_mem _ hrow
  have bC0 : 0 ≤ invNormWith (statsOf (df.map AreaRecord.COLI)) row.COLI :=
    invNormWith_nonneg (le_seriesMax_of_mem hmC) h1
  have bC1 : invNormWith (statsOf (df.map AreaRecord.COLI)) row.COLI ≤ 100 :=
    invNormWith_le_100 (seriesMin_le_of_mem hmC) h1
  have bT0 : 0 ≤ invNormWith (statsOf (df.map AreaRecord.TRF)) row.TRF :=
    invNormWith_nonneg (le_seriesMax_of_mem hmT) h2
  have bT1 : invNormWith (statsOf (df.map AreaRecord.TRF)) row.TRF ≤ 100 :=
    invNormWith_le_100 (seriesMin_le_of_mem hmT) h2
  have bP0 : 0 ≤ invNormWith (statsOf (df.map AreaRecord.PTR)) row.PTR :=
    invNormWith_nonneg (le_seriesMax_of_mem hmP) h3
  have bP1 : invNormWith (statsOf (df.map AreaRecord.PTR)) row.PTR ≤ 100 :=
    invNormWith_le_100 (seriesMin_le_of_mem hmP) h3
  have bR0 : 0 ≤ invNormWith (statsOf (df.map AreaRecord.TR)) row.TR :=
    invNormWith_nonneg (le_seriesMax_of_mem hmR) h4
  have bR1 : invNormWith (statsOf (df.map AreaRecord.TR)) row.TR ≤ 100 :=
    invNormWith_le_100 (seriesMin_le_of_mem hmR) h4
  have bS0 : 0 ≤ normWith (statsOf (df.map AreaRecord.RSF)) row.RSF :=
    normWith_nonneg (seriesMin_le_of_mem hmS) h5
  have bS1 : normWith (statsOf (df.map AreaRecord.RSF)) row.RSF ≤ 100 :=
    normWith_le_100 (le_seriesMax_of_mem hmS) h5
  have bV0 : 0 ≤ normWith (statsOf (df.map AreaRecord.Savings)) row.Savings :=
    normWith_nonneg (seriesMin_le_of_mem hmV) h6
  have bV1 : normWith (statsOf (df.map AreaRecord.Savings)) row.Savings ≤ 100 :=
    normWith_le_100 (le_seriesMax_of_mem hmV) h6
  have hadj : (computeResult df agi row).adjustment =
      15 * (invNormWith (statsOf (df.map AreaRecord.COLI)) row.COLI / 100) +
      10 * (invNormWith (statsOf (df.map AreaRecord.TRF)) row.TRF / 100) +
      10 * (invNormWith (statsOf (df.map AreaRecord.PTR)) row.PTR / 100) +
      10 * (invNormWith (statsOf (df.map AreaRecord.TR)) row.TR / 100) +
      5 * (normWith (statsOf (df.map AreaRecord.RSF)) row.RSF / 100) +
      5 * (normWith (statsOf (df.map AreaRecord.Savings)) row.Savings / 100) := rfl
  rw [hadj]
  constructor <;> linarith

theorem nondeg_pair : nondegCols [rA, rB] := by
  norm_num [nondegCols, seriesMin, seriesMax, rA, rB, min_def, max_def]

/-! ## Claim theorems -/

/-- Claim C1: for every agi and every strictly positive PCPI, the base score
is the first-match-wins lookup of the ratio agi/PCPI through the fixed
ascending ten-band table with half-open bands (last band open-ended); in
particular a ratio of exactly 1.0 yields 600 (the band below 1.2, not the
band below 1.0) and a ratio of 0.4 yields 350. -/
theorem spec_c1 :
    (∀ agi pcpi : ℚ, 0 < pcpi →
      base_score_from_agi agi pcpi = bandLookup bands (agi / pcpi)) ∧
    base_score_from_agi 80000 80000 = 600 ∧
    base_score_from_agi 40000 100000 = 350 := by
  refine ⟨fun agi pcpi _ => base_score_eq_bandLookup agi pcpi, ?_, ?_⟩ <;>
    norm_num [base_score_from_agi]

/-- Witness for C1, instantiating the table characterization at
agi = 80000, PCPI = 80000. -/
theorem spec_c1_witness :
    (0 : ℚ) < 80000 ∧
    base_score_from_agi 80000 80000 = bandLookup bands (80000 / 80000) :=
  ⟨by norm_num, spec_c1.1 80000 80000 (by norm_num)⟩

/-- Claim C3 fails on the code: `normalize` and `inverse_normalize` have no
zero-variance fallback and divide by `max - min = 0` on a constant column.
In this exact-rational embedding, where division by zero yields 0, every
output on the constant column `[5, 5]` is 0 — not the mandated 50.0; under
the source's float semantics the same expression is `0/0 = NaN`.  Either
way the spec-mandated neutral midpoint 50.0 is not produced. -/
theorem spec_c3 :
    normalize [(5 : ℚ), 5] = [0, 0] ∧ inverse_normalize [(5 : ℚ), 5] = [0, 0] ∧
    normalize [(5 : ℚ), 5] ≠ [50, 50] := by
  refine ⟨?_, ?_, ?_⟩ <;>
    norm_num [normalize, inverse_normalize, seriesMin, seriesMax]

/-- Claim C5 fails on the code: `base_score_from_agi` has no guard on PCPI
and raises no `InvalidInputError`; with the strictly negative
PCPI = -50000 it still computes a ratio (here -1.6, below every band bound)
and returns the score 350 instead of rejecting the input. -/
theorem spec_c5 : base_score_from_agi 80000 (-50000) = 350 := by
  norm_num [base_score_from_agi]

/-- Claim C6 fails on the code: on a single-row dataset every column is
degenerate (min = max), so each of the six normalized terms is a division
by zero — 0 in this exact-rational embedding, NaN under the source's float
semantics — and the adjustment is 0 (resp. NaN), not the 27.5 the spec
mandates via the 50.0 fallback. -/
theorem spec_c6 :
    (computeResult [rA] 80000 rA).adjustment = 0 ∧
    (computeResult [rA] 80000 rA).adjustment ≠ 27.5 := by
  refine ⟨?_, ?_⟩ <;>
    norm_num [computeResult, invNormWith, normWith, statsOf, seriesMin, seriesMax, rA]

/-- Claim C7: holding PCPI fixed and strictly positive, increasing agi never
decreases the base score (the band table is monotone in the ratio). -/
theorem spec_c7 (pcpi a1 a2 : ℚ) (hp : 0 < pcpi) (h12 : a1 ≤ a2) :
    base_score_from_agi a1 pcpi ≤ base_score_from_agi a2 pcpi := by
  have hr : a1 / pcpi ≤ a2 / pcpi := by gcongr
  rw [base_score_eq_bandLookup, base_score_eq_bandLookup]
  exact bandLookup_mono bands scoresMono_bands hr

/-- Witness for C7 at PCPI = 50000, a1 = 40000, a2 = 90000. -/
theorem spec_c7_witness :
    (0 : ℚ) < 50000 ∧ (40000 : ℚ) ≤ 90000 ∧
    base_score_from_agi 40000 50000 ≤ base_score_from_agi 90000 50000 :=
  ⟨by norm_num, by norm_num, spec_c7 50000 40000 90000 (by norm_num) (by norm_num)⟩

/-- Claim C8: the qualitative label of a score result is derived from the
final score (not from the income ratio) by the five ascending
first-match-wins bands below 500 / 600 / 700 / 800, with everything else
labeled Excellent. -/
theorem spec_c8 (df : List AreaRecord) (agi : ℚ) (row : AreaRecord) :
    (computeResult df agi row).label =
      labelLookup labelBands ((computeResult df agi row).final_score) := by
  have h : (computeResult df agi row).label =
      label_from_score ((computeResult df agi row).final_score) := rfl
  rw [h]
  exact label_from_score_eq_lookup _

/-- Claim C2 fails on the code: the single-row dataset [rC] at agi = 80000 is
valid input exactly as the claim defines validity (positive agi, positive
PCPI, every scoring column numeric), yet every indicator column has zero
spread, so each of the six adjustment terms divides by `max - min = 0`.
Under the source's float semantics each term is `0/0 = NaN`, the sum
`base_score + adjustment` is NaN, and Python's `round` on it raises
ValueError (src/app.py line 82): no final score in [300, 850] is produced.
In this exact-rational embedding division by zero yields 0, so the
adjustment below evaluates to 0 — the embedding's image of that NaN. -/
theorem spec_c2 :
    (0 : ℚ) < 80000 ∧ (0 : ℚ) < rC.PCPI ∧
    seriesMax ([rC].map AreaRecord.COLI) = seriesMin ([rC].map AreaRecord.COLI) ∧
    (computeResult [rC] 80000 rC).adjustment = 0 := by
  refine ⟨by norm_num, by norm_num [rC], ?_, ?_⟩ <;>
    norm_num [computeResult, invNormWith, normWith, statsOf, seriesMin, seriesMax, rC]

/-- Claim C4: on a non-degenerate column, every element's normalized and
inverse-normalized values lie in [0, 100] and sum to exactly 100 (the
embedding is exact, so no floating tolerance is needed). -/
theorem spec_c4 (s : List ℚ) (i : ℕ) (hi : i < s.length)
    (hnd : seriesMin s < seriesMax s) :
    0 ≤ (normalize s).getD i 0 ∧ (normalize s).getD i 0 ≤ 100 ∧
    0 ≤ (inverse_normalize s).getD i 0 ∧ (inverse_normalize s).getD i 0 ≤ 100 ∧
    (normalize s).getD i 0 + (inverse_normalize s).getD i 0 = 100 := by
  have hn : (normalize s).getD i 0 = normWith (statsOf s) (s.getD i 0) :=
    getD_map_of_lt _ 0 0 s i hi
  have hv : (inverse_normalize s).getD i 0 = invNormWith (statsOf s) (s.getD i 0) :=
    getD_map_of_lt _ 0 0 s i hi
  have hmem : s.getD i 0 ∈ s := getD_mem_of_lt (0 : ℚ) s i hi
  have hlo : seriesMin s ≤ s.getD i 0 := seriesMin_le_of_mem hmem
  have hhi : s.getD i 0 ≤ seriesMax s := le_seriesMax_of_mem hmem
  rw [hn, hv]
  exact ⟨normWith_nonneg hlo hnd, normWith_le_100 hhi hnd,
    invNormWith_nonneg hhi hnd, invNormWith_le_100 hlo hnd,
    normWith_add_invNormWith hnd⟩

/-- Witness for C4 on the column [1, 3] at index 0. -/
theorem spec_c4_witness :
    0 < [(1 : ℚ), 3].length ∧ seriesMin [(1 : ℚ), 3] < seriesMax [(1 : ℚ), 3] ∧
    (normalize [(1 : ℚ), 3]).getD 0 0 + (inverse_normalize [(1 : ℚ), 3]).getD 0 0 = 100 :=
  ⟨by decide, by norm_num [seriesMin, seriesMax, min_def, max_def],
   (spec_c4 [(1 : ℚ), 3] 0 (by decide)
     (by norm_num [seriesMin, seriesMax, min_def, max_def])).2.2.2.2⟩

/-- Claim C9: the batch scorer produces exactly one score per record, in the
input order: it equals the map, over the dataset in order, of the per-row
score computed against one shared set of column statistics taken once over
the full dataset. -/
theorem spec_c9 (df : List AreaRecord) (agi : ℚ) :
    (museScores df agi).length = df.length ∧
    museScores df agi = df.map (rowScoreWith (sharedStats df) agi) :=
  ⟨by rw [museScores_eq_map, List.length_map], museScores_eq_map df agi⟩

/-- Claim C10: for every row index, the batch score (base plus adjustment,
clipped at 850, then rounded) equals the single-area final score for that
row at the same agi; in exact arithmetic the clip/round order difference
between the two code paths is immaterial.  Non-degeneracy of the columns
restricts to the regime where the float code performs no 0/0 division. -/
theorem spec_c10 (df : List AreaRecord) (agi : ℚ) (i : ℕ) (hi : i < df.length)
    (hnd : nondegCols df) :
    (museScores df agi).getD i 0 =
      (computeResult df agi (df.getD i default)).final_score := by
  rw [museScores_eq_map]
  rw [getD_map_of_lt _ 0 default df i hi]
  exact rowScore_eq_final df agi (df.getD i default)

/-- Witness for C10 on the two-row dataset [rA, rB] at agi = 80000, row 0. -/
theorem spec_c10_witness :
    0 < [rA, rB].length ∧ nondegCols [rA, rB] ∧
    (museScores [rA, rB] 80000).getD 0 0 =
      (computeResult [rA, rB] 80000 ([rA, rB].getD 0 default)).final_score :=
  ⟨by decide, nondeg_pair, spec_c10 [rA, rB] 80000 0 (by decide) nondeg_pair⟩

end MuseScore
